import Mathlib

/-!
Verification of the mcp-text-editor server's handler layer
(src/mcp_text_editor/server.py) over a shallow embedding.

The repository ships only server.py; the TextEditor engine it calls
(module text_editor.py: read_file_contents, read_multiple_ranges,
edit_file_contents and the hasher) is not part of the sources, so those
operations are modelled from the specification (sections 4.1 to 4.4);
their doc comments say so explicitly.  The handlers themselves
(GetTextFileContents, EditTextFileContents, CreateTextFile,
AppendTextFileContents, DeleteTextFileContents) are translated directly
from server.py.

The filesystem is an association list from paths to file contents; a
write shadows earlier entries.  Each handler returns, besides its
result, the final filesystem and an access log: the list of paths for
which the underlying editor was invoked (one entry per read_file_contents
or edit_file_contents call), so claims of the form "no disk access
happens" are statable.
-/

/-- A filesystem: pairs of absolute path and file content, most recent first. -/
abbrev FS := List (String × String)

/-- Look a path up; the most recently written entry wins. -/
def FS.read : FS → String → Option String
  | [], _ => none
  | (q, c) :: rest, p => if q = p then some c else FS.read rest p

/-- Write a file: shadow any previous entry for the path. -/
def FS.write (fs : FS) (p c : String) : FS := (p, c) :: fs

/-- Existence test, as os.path.exists restricted to regular files. -/
def FS.existsFile (fs : FS) (p : String) : Bool := (FS.read fs p).isSome

/-- Model of os.path.isabs on posix: the path starts with a slash. -/
def isAbs (p : String) : Bool :=
  match p.data with
  | c :: _ => c == '/'
  | [] => false

/-- Modelled from the spec: the Hasher (section 4.1) of the missing
text_editor.py.  Deterministic and injective on contents, and never equal
to the empty string, which is all the engine relies on; the real code
uses a hex SHA-256 digest. -/
def hashStr (s : String) : String := "#" ++ s

/-- Helper for splitLines: walk the characters, cutting after each
newline; acc holds the current line reversed. -/
def splitLinesAux : List Char → List Char → List (List Char)
  | [], acc => if acc.isEmpty then [] else [acc.reverse]
  | c :: cs, acc =>
      if c = '\n' then (c :: acc).reverse :: splitLinesAux cs []
      else splitLinesAux cs (c :: acc)

/-- Modelled from the spec: the File Reader's line splitting (section 4.2)
of the missing text_editor.py, as Python's str.splitlines(keepends=True)
restricted to the newline terminator: each line keeps its terminator and
a trailing unterminated line is kept without one. -/
def splitLines (s : String) : List String :=
  (splitLinesAux s.data []).map (fun l => String.mk l)

/-- Does the string end with a newline, as Python's str.endswith with a
one-character argument. -/
def endsWithNL (s : String) : Bool :=
  match s.data.getLast? with
  | some c => c == '\n'
  | none => false

/-- One patch of an edit request, with the fields of the tool schema;
fin stands for the JSON field named end (null for end of file). -/
structure Patch where
  start : Int
  fin : Option Int
  contents : String
  range_hash : String
deriving DecidableEq, Repr

/-- Per-file result of an edit, with the fields the handlers return. -/
structure EditResult where
  result : String
  reason : Option String
  file_hash : Option String
deriving DecidableEq, Repr

/-- Shape of a patch, from the spec's classification (section 4.3 step 3). -/
inductive PatchKind
  | create
  | append
  | insert
  | replace
deriving DecidableEq, Repr

/-- Modelled from the spec: patch classification (section 4.3 step 3) of
the missing text_editor.py.  total is the line count of the snapshot;
none means the patch fits no legal shape. -/
def classifyPatch (total : Nat) (p : Patch) : Option PatchKind :=
  if total = 0 ∧ p.start = 1 then some PatchKind.create
  else if p.start = (total : Int) + 1 ∧ (p.fin = none ∨ p.fin = some (total : Int)) then
    some PatchKind.append
  else
    match p.fin with
    | some e =>
        if p.start = e + 1 then some PatchKind.insert
        else if 1 ≤ p.start ∧ p.start ≤ e ∧ e ≤ (total : Int) then some PatchKind.replace
        else none
    | none =>
        if 1 ≤ p.start ∧ p.start ≤ (total : Int) then some PatchKind.replace
        else none

/-- Resolve a patch's end line: null means through end of file. -/
def resolveEnd (total : Nat) (p : Patch) : Nat :=
  match p.fin with
  | some e => e.toNat
  | none => total

/-- Content of the inclusive 1-based line range s..e, terminators kept. -/
def rangeContent (lines : List String) (s e : Nat) : String :=
  String.join ((lines.drop (s - 1)).take (e + 1 - s))

/-- Line interval a patch occupies, for the overlap check; an insert is
zero-width (its end is start - 1). -/
def patchInterval (total : Nat) (p : Patch) : Int × Int :=
  (p.start, match p.fin with | some e => e | none => (total : Int))

/-- Do two inclusive integer intervals intersect. -/
def overlaps (a b : Int × Int) : Bool :=
  decide (a.1 ≤ b.2) && decide (b.1 ≤ a.2)

/-- Pairwise disjointness of a list of intervals. -/
def pairwiseDisjoint : List (Int × Int) → Bool
  | [] => true
  | iv :: rest => rest.all (fun jv => !overlaps iv jv) && pairwiseDisjoint rest

/-- Insert a patch into a list sorted by start line descending. -/
def insertDesc (p : Patch) : List Patch → List Patch
  | [] => [p]
  | q :: qs => if p.start ≤ q.start then q :: insertDesc p qs else p :: q :: qs

/-- Sort patches by start line descending (section 4.3 step 6). -/
def sortDesc : List Patch → List Patch
  | [] => []
  | p :: ps => insertDesc p (sortDesc ps)

/-- Modelled from the spec: validation and ordering (section 4.3 steps
3 to 6) of the missing text_editor.py.  Checks every patch has a legal
shape, replace patches carry the current range hash, at most one append
exists, and no two non-append patches overlap; returns the application
order, descending by start with the append last. -/
def validatePatches (total : Nat) (lines : List String) (patches : List Patch) :
    Except String (List Patch) :=
  if !(patches.all (fun p => (classifyPatch total p).isSome)) then
    Except.error "Invalid patch range"
  else if !(patches.all (fun p =>
      if classifyPatch total p = some PatchKind.replace then
        p.range_hash == hashStr (rangeContent lines p.start.toNat (resolveEnd total p))
      else true)) then
    Except.error "Range hash mismatch - range may have been modified"
  else if 1 < (patches.filter (fun p => classifyPatch total p == some PatchKind.append)).length then
    Except.error "Multiple append patches are not allowed"
  else if !(pairwiseDisjoint
      ((patches.filter (fun p => !(classifyPatch total p == some PatchKind.append))).map
        (patchInterval total))) then
    Except.error "Overlapping patches are not allowed"
  else
    Except.ok
      (sortDesc (patches.filter (fun p => !(classifyPatch total p == some PatchKind.append)))
        ++ patches.filter (fun p => classifyPatch total p == some PatchKind.append))

/-- Give the last line a newline terminator when it lacks one. -/
def terminateLast : List String → List String
  | [] => []
  | [s] => [if endsWithNL s then s else s ++ "\n"]
  | s :: rest => s :: terminateLast rest

/-- Modelled from the spec: patch application (section 4.4) of the missing
text_editor.py.  total is fixed at read time; lines is the current
sequence.  New lines get a default terminator except when the patch covers
the end of file. -/
def applyPatch (total : Nat) (lines : List String) (p : Patch) : List String :=
  match classifyPatch total p with
  | some PatchKind.create => splitLines p.contents
  | some PatchKind.append => lines ++ terminateLast (splitLines p.contents)
  | some PatchKind.insert =>
      let s := p.start.toNat
      lines.take (s - 1) ++ terminateLast (splitLines p.contents) ++ lines.drop (s - 1)
  | some PatchKind.replace =>
      let s := p.start.toNat
      let e := resolveEnd total p
      let newLs := splitLines p.contents
      lines.take (s - 1) ++ (if e = total then newLs else terminateLast newLs) ++ lines.drop e
  | none => lines

/-- Modelled from the spec: the hash comparison and patch pipeline of
edit_file_contents for an existing file (sections 4.3 step 2 and 4.4) of
the missing text_editor.py.  A stale expected hash is a conflict carrying
the current hash; otherwise patches are validated, ordered, applied, and
the new content is written atomically. -/
def editExisting (fs : FS) (path content expected : String) (patches : List Patch) :
    EditResult × FS :=
  let curHash := hashStr content
  if expected = curHash then
    let lines := splitLines content
    let total := lines.length
    match validatePatches total lines patches with
    | Except.error reason => (⟨"error", some reason, some curHash⟩, fs)
    | Except.ok ordered =>
        let newContent := String.join (ordered.foldl (applyPatch total) lines)
        (⟨"ok", none, some (hashStr newContent)⟩, FS.write fs path newContent)
  else (⟨"error", some "File hash mismatch - file has been modified", some curHash⟩, fs)

/-- Modelled from the spec: TextEditor.edit_file_contents (sections 4.3
and 4.4) of the missing text_editor.py.  A missing file is created only
when the expected hash is empty and every patch is creation-style
(start 1, end null or 0); the created content is the concatenation of the
patches' contents.  Errors carry the current on-disk hash (null when the
file is unreadable) and leave the filesystem unchanged. -/
def editFileContents (fs : FS) (path expected : String) (patches : List Patch) :
    EditResult × FS :=
  match FS.read fs path with
  | none =>
      if expected = "" ∧ ∀ p ∈ patches, p.start = 1 ∧ (p.fin = none ∨ p.fin = some 0) then
        let newContent := String.join (patches.map Patch.contents)
        (⟨"ok", none, some (hashStr newContent)⟩, FS.write fs path newContent)
      else (⟨"error", some "File not found", none⟩, fs)
  | some content => editExisting fs path content expected patches

/-- Modelled from the spec: TextEditor.read_file_contents of the missing
text_editor.py, reduced to the parts the handlers consume: the content,
the full hash, and the total line count, read fresh from storage. -/
def readFileContents (fs : FS) (path : String) : Option (String × String × Nat) :=
  (FS.read fs path).map (fun c => (c, hashStr c, (splitLines c).length))

/-- One range of a read request; fin stands for the JSON field end. -/
structure ReadRange where
  start : Int
  fin : Option Int
deriving DecidableEq, Repr

/-- One file entry of a read request. -/
structure ReadFileOp where
  file_path : String
  ranges : List ReadRange
deriving DecidableEq, Repr

/-- Result of reading one range (section 3 RangeResult, without the size). -/
structure RangeResult where
  content : String
  startLine : Int
  endLine : Int
  range_hash : String
  total_lines : Nat
deriving DecidableEq, Repr

/-- Modelled from the spec: one range query of the File Reader
(section 4.2) of the missing text_editor.py.  end null resolves to the
total line count; a start below 1 or beyond the end of a non-empty file
is an invalid range. -/
def readRange (lines : List String) (total : Nat) (r : ReadRange) : Except String RangeResult :=
  let e := match r.fin with | some e => e | none => (total : Int)
  if r.start < 1 ∨ ((total : Int) < r.start ∧ total ≠ 0) then Except.error "Invalid line range"
  else
    let c := rangeContent lines r.start.toNat e.toNat
    Except.ok ⟨c, r.start, e, hashStr c, total⟩

/-- Modelled from the spec: TextEditor.read_multiple_ranges (section 4.2)
of the missing text_editor.py.  Per-file errors are aggregated without
aborting the batch; the second component is the access log, one entry per
file read. -/
def readMultipleRanges (fs : FS) (ops : List ReadFileOp) :
    List (String × Except String (String × Nat × List (Except String RangeResult))) ×
      List String :=
  (ops.map (fun op =>
      (op.file_path,
        match FS.read fs op.file_path with
        | none => Except.error "File not found"
        | some c =>
            let lines := splitLines c
            Except.ok (hashStr c, lines.length, op.ranges.map (readRange lines lines.length)))),
   ops.map (fun op => op.file_path))

/-- GetTextFileContentsHandler.run_tool from server.py: every path of
the request is checked to be absolute, in order, before the reader is
invoked; the first relative path aborts the call with no file accessed. -/
def getRun (fs : FS) (ops : List ReadFileOp) :
    Except String
        (List (String × Except String (String × Nat × List (Except String RangeResult)))) ×
      List String :=
  match ops.find? (fun op => !isAbs op.file_path) with
  | some op => (Except.error ("File path must be absolute: " ++ op.file_path), [])
  | none =>
      let rl := readMultipleRanges fs ops
      (Except.ok rl.1, rl.2)

/-- One file operation of an edit request; each field is optional because
the JSON object may omit it, which server.py checks explicitly. -/
structure FileOp where
  path : Option String
  file_hash : Option String
  patches : Option (List Patch)
deriving DecidableEq, Repr

/-- The body of the per-file loop of EditTextFileContentsHandler.run_tool
from server.py: the required-field checks and the absolute-path check
raise (error aborts the whole call); inside the try, an empty patches
list yields a per-file error carrying the caller's hash token, otherwise
the editor runs.  In the model the editor returns results instead of
raising, so the per-file except branch of the source is unreachable. -/
def processFileOp (fs : FS) (op : FileOp) :
    Except String (String × EditResult × FS × List String) :=
  match op.path with
  | none => Except.error "Missing required field: path"
  | some path =>
    match op.file_hash with
    | none => Except.error "Missing required field: file_hash"
    | some token =>
      match op.patches with
      | none => Except.error "Missing required field: patches"
      | some patches =>
        if !isAbs path then Except.error ("File path must be absolute: " ++ path)
        else if patches.isEmpty then
          Except.ok (path, ⟨"error", some "Empty patches list", some token⟩, fs, [])
        else
          let pr := editFileContents fs path token patches
          Except.ok (path, pr.1, pr.2, [path])

/-- EditTextFileContentsHandler.run_tool from server.py: the file
operations are processed in order; a raise from the loop body aborts the
whole call (the entries collected so far are discarded but effects on the
filesystem persist).  Results are kept as an ordered list of pairs, the
model of the results dict. -/
def editBatchRun (fs : FS) :
    List FileOp → Except String (List (String × EditResult)) × FS × List String
  | [] => (Except.ok [], fs, [])
  | op :: rest =>
    match processFileOp fs op with
    | Except.error m => (Except.error m, fs, [])
    | Except.ok (name, r, fs1, log1) =>
      match editBatchRun fs1 rest with
      | (Except.error m, fs2, log2) => (Except.error m, fs2, log1 ++ log2)
      | (Except.ok entries, fs2, log2) => (Except.ok ((name, r) :: entries), fs2, log1 ++ log2)

/-- CreateTextFileHandler.run_tool from server.py: an existing path is an
error; otherwise the call is edit_file_contents with empty expected hash
and the single creation patch start 1, end null, empty range_hash. -/
def createRun (fs : FS) (path contents : String) : Except String EditResult × FS × List String :=
  if !isAbs path then (Except.error ("File path must be absolute: " ++ path), fs, [])
  else if FS.existsFile fs path then (Except.error ("File already exists: " ++ path), fs, [])
  else
    let pr := editFileContents fs path "" [⟨1, none, contents, ""⟩]
    (Except.ok pr.1, pr.2, [path])

/-- AppendTextFileContentsHandler.run_tool from server.py: the file must
exist; its content, hash and total line count are read fresh, the
caller's hash token must equal the current hash, the content to append is
given a trailing newline when it lacks one, and the call becomes
edit_file_contents with the single append patch start total+1, end null,
empty range_hash. -/
def appendRun (fs : FS) (path contents token : String) :
    Except String EditResult × FS × List String :=
  if !isAbs path then (Except.error ("File path must be absolute: " ++ path), fs, [])
  else
    match readFileContents fs path with
    | none => (Except.error ("File does not exist: " ++ path), fs, [])
    | some (_, curHash, total) =>
      if token = curHash then
        let ac := if endsWithNL contents then contents else contents ++ "\n"
        let pr := editFileContents fs path token [⟨(total : Int) + 1, none, ac, ""⟩]
        (Except.ok pr.1, pr.2, [path, path])
      else (Except.error "File hash mismatch - file may have been modified", fs, [path])

/-- One entry of a delete request's ranges; fin is doubly optional: the
outer layer says whether the JSON object has an end key at all, the inner
is its value (null for end of file).  The declared schema requires only
start and range_hash. -/
structure DeleteRange where
  start : Int
  fin : Option (Option Int)
  range_hash : String
deriving DecidableEq, Repr

/-- The patch-building comprehension of DeleteTextFileContentsHandler:
each range becomes a patch with empty contents; a range without an end
key raises a lookup error at that point. -/
def buildDeletePatches : List DeleteRange → Except String (List Patch)
  | [] => Except.ok []
  | r :: rs =>
    match r.fin with
    | none => Except.error "KeyError: end"
    | some e =>
      match buildDeletePatches rs with
      | Except.error m => Except.error m
      | Except.ok ps => Except.ok (⟨r.start, e, "", r.range_hash⟩ :: ps)

/-- DeleteTextFileContentsHandler.run_tool from server.py: the file must
exist; the ranges become empty-contents patches and the call becomes
edit_file_contents with the caller's hash token.  A failure while
building the patches aborts the whole call before the editor runs. -/
def deleteRun (fs : FS) (path token : String) (ranges : List DeleteRange) :
    Except String EditResult × FS × List String :=
  if !isAbs path then (Except.error ("File path must be absolute: " ++ path), fs, [])
  else if !FS.existsFile fs path then
    (Except.error ("File does not exist: " ++ path), fs, [])
  else
    match buildDeletePatches ranges with
    | Except.error m => (Except.error ("Error processing request: " ++ m), fs, [])
    | Except.ok ps =>
        let pr := editFileContents fs path token ps
        (Except.ok pr.1, pr.2, [path])

/-- Wellformedness of one edit file operation: all required fields are
present and the path is absolute. -/
def wfOp (op : FileOp) : Prop :=
  ∃ p tok ps, op.path = some p ∧ isAbs p = true ∧ op.file_hash = some tok ∧
    op.patches = some ps

/-- The empty string is a left identity of string append. -/
theorem empty_append_str (s : String) : "" ++ s = s := by
  cases s with
  | mk l => rfl

/-- Reading back a freshly written path yields the written content. -/
theorem FS.read_write (fs : FS) (p c : String) : FS.read (FS.write fs p c) p = some c := by
  simp [FS.read, FS.write]

/-- Every error result of the editor carries the hash of the current
on-disk content, or none when the file does not exist. -/
theorem edit_error_hash (fs : FS) (path expected : String) (patches : List Patch)
    (h : (editFileContents fs path expected patches).1.result = "error") :
    (editFileContents fs path expected patches).1.file_hash =
      Option.map hashStr (FS.read fs path) := by
  cases hr : FS.read fs path with
  | none =>
    simp only [editFileContents, hr] at h ⊢
    by_cases hc : expected = "" ∧ ∀ p ∈ patches, p.start = 1 ∧ (p.fin = none ∨ p.fin = some 0)
    · rw [if_pos hc] at h
      exact absurd h (show ("ok" : String) ≠ "error" by decide)
    · rw [if_neg hc]
      rfl
  | some c =>
    simp only [editFileContents, hr, editExisting] at h ⊢
    by_cases he : expected = hashStr c
    · simp only [if_pos he] at h ⊢
      cases hv : validatePatches (splitLines c).length (splitLines c) patches with
      | error reason => simp [hv]
      | ok o =>
        rw [hv] at h
        exact absurd h (show ("ok" : String) ≠ "error" by decide)
    · simp [if_neg he]

/-- Error results of the editor leave the filesystem unchanged. -/
theorem edit_error_fs (fs : FS) (path expected : String) (patches : List Patch)
    (h : (editFileContents fs path expected patches).1.result = "error") :
    (editFileContents fs path expected patches).2 = fs := by
  cases hr : FS.read fs path with
  | none =>
    simp only [editFileContents, hr] at h ⊢
    by_cases hc : expected = "" ∧ ∀ p ∈ patches, p.start = 1 ∧ (p.fin = none ∨ p.fin = some 0)
    · rw [if_pos hc] at h
      exact absurd h (show ("ok" : String) ≠ "error" by decide)
    · rw [if_neg hc]
  | some c =>
    simp only [editFileContents, hr, editExisting] at h ⊢
    by_cases he : expected = hashStr c
    · simp only [if_pos he] at h ⊢
      cases hv : validatePatches (splitLines c).length (splitLines c) patches with
      | error reason => simp [hv]
      | ok o =>
        rw [hv] at h
        exact absurd h (show ("ok" : String) ≠ "error" by decide)
    · simp [if_neg he]

/-- A wellformed file operation is never fatal to the call: the per-file
loop body yields a result entry for it. -/
theorem processFileOp_wf_ok (fs : FS) (op : FileOp) (h : wfOp op) :
    ∃ out, processFileOp fs op = Except.ok out := by
  obtain ⟨p, tok, ps, hp, habs, htok, hps⟩ := h
  simp only [processFileOp, hp, htok, hps]
  rw [if_neg (by simp [habs])]
  by_cases hemp : ps.isEmpty = true
  · rw [if_pos hemp]; exact ⟨_, rfl⟩
  · rw [if_neg hemp]; exact ⟨_, rfl⟩

/-- A file operation whose path is present but relative makes the loop
body raise, whatever the other fields hold. -/
theorem processFileOp_relative_error (fs : FS) (op : FileOp) (p : String)
    (hp : op.path = some p) (habs : isAbs p = false) :
    ∃ m, processFileOp fs op = Except.error m := by
  cases htk : op.file_hash with
  | none => exact ⟨"Missing required field: file_hash", by simp [processFileOp, hp, htk]⟩
  | some tok =>
    cases hps : op.patches with
    | none => exact ⟨"Missing required field: patches", by simp [processFileOp, hp, htk, hps]⟩
    | some ps =>
      exact ⟨"File path must be absolute: " ++ p,
        by simp [processFileOp, hp, htk, hps, habs]⟩

/-- An edit batch holding an operation with a relative path always fails
as a whole. -/
theorem editBatchRun_error_of_relative (fs : FS) (files : List FileOp)
    (h : ∃ op ∈ files, ∃ p, op.path = some p ∧ isAbs p = false) :
    ∃ m fs2 log, editBatchRun fs files = (Except.error m, fs2, log) := by
  induction files generalizing fs with
  | nil => simp at h
  | cons op rest ih =>
    obtain ⟨op0, hmem, p, hp, habs⟩ := h
    simp only [List.mem_cons] at hmem
    cases hout : processFileOp fs op with
    | error m => exact ⟨m, fs, [], by simp [editBatchRun, hout]⟩
    | ok out =>
      obtain ⟨name, r, fs1, log1⟩ := out
      rcases hmem with rfl | hmem
      · obtain ⟨m, hm⟩ := processFileOp_relative_error fs op0 p hp habs
        rw [hm] at hout
        exact absurd hout (by simp)
      · obtain ⟨m, fs2, log2, hrun⟩ := ih fs1 ⟨op0, hmem, p, hp, habs⟩
        exact ⟨m, fs2, log1 ++ log2, by simp [editBatchRun, hout, hrun]⟩

/-- A read request holding a relative path fails with no file accessed:
the access log is empty. -/
theorem getRun_error_of_relative (fs : FS) (ops : List ReadFileOp)
    (h : ∃ op ∈ ops, isAbs op.file_path = false) :
    ∃ m, getRun fs ops = (Except.error m, []) := by
  obtain ⟨op0, hmem, habs⟩ := h
  have hsome : (ops.find? (fun op => !isAbs op.file_path)).isSome := by
    rw [List.find?_isSome]
    exact ⟨op0, hmem, by simp [habs]⟩
  obtain ⟨op1, hfind⟩ := Option.isSome_iff_exists.mp hsome
  exact ⟨"File path must be absolute: " ++ op1.file_path, by simp [getRun, hfind]⟩

/-- When every delete range has an end key, building the patches succeeds
and produces one empty-contents patch per range. -/
theorem buildDeletePatches_ok (ranges : List DeleteRange)
    (h : ∀ r ∈ ranges, r.fin.isSome = true) :
    buildDeletePatches ranges =
      Except.ok (ranges.map fun r => ⟨r.start, r.fin.join, "", r.range_hash⟩) := by
  induction ranges with
  | nil => rfl
  | cons r rs ih =>
    obtain ⟨e, he⟩ := Option.isSome_iff_exists.mp (h r (List.mem_cons_self r rs))
    simp only [buildDeletePatches, he, ih (fun x hx => h x (List.mem_cons_of_mem r hx)),
      List.map_cons]
    simp [he, Option.join]

/-- When some delete range lacks an end key, building the patches raises
a lookup error. -/
theorem buildDeletePatches_missing (ranges : List DeleteRange)
    (h : ∃ r ∈ ranges, r.fin = none) :
    ∃ m, buildDeletePatches ranges = Except.error m := by
  induction ranges with
  | nil => simp at h
  | cons r rs ih =>
    obtain ⟨r0, hmem, hfin⟩ := h
    simp only [List.mem_cons] at hmem
    cases hf : r.fin with
    | none => exact ⟨"KeyError: end", by simp [buildDeletePatches, hf]⟩
    | some e =>
      rcases hmem with rfl | hmem
      · rw [hf] at hfin
        exact absurd hfin (by simp)
      · obtain ⟨m, hm⟩ := ih ⟨r0, hmem, hfin⟩
        exact ⟨m, by simp [buildDeletePatches, hf, hm]⟩

/-- Claim C1: an edit request whose expected file hash token differs from
the file's current full hash fails with a conflict error that carries the
current hash, the filesystem is unchanged and the patches are never
applied; the append handler's own hash comparison fails the same way
without modifying the file. -/
theorem stale_file_hash_conflict (fs : FS) (path expected contents c : String)
    (patches : List Patch) (hc : FS.read fs path = some c) (hne : expected ≠ hashStr c) :
    editFileContents fs path expected patches =
      (⟨"error", some "File hash mismatch - file has been modified", some (hashStr c)⟩, fs) ∧
    (isAbs path = true →
      appendRun fs path contents expected =
        (Except.error "File hash mismatch - file may have been modified", fs, [path])) := by
  constructor
  · simp only [editFileContents, hc, editExisting, if_neg hne]
  · intro habs
    simp only [appendRun, habs, Bool.not_true, Bool.false_eq_true, if_false,
      readFileContents, hc, Option.map_some', if_neg hne]

/-- Witness for claim C1: a stale token against the three-line file of
the specification's scenario is rejected by the editor and by the append
handler, both leaving the file as it was. -/
theorem stale_file_hash_conflict_witness :
    editFileContents [("/f", "a\nb\nc\n")] "/f" "H0stale" [⟨2, some 2, "B\n", hashStr "b\n"⟩] =
      (⟨"error", some "File hash mismatch - file has been modified", some (hashStr "a\nb\nc\n")⟩,
       [("/f", "a\nb\nc\n")]) ∧
    appendRun [("/f", "a\nb\nc\n")] "/f" "x\n" "H0stale" =
      (Except.error "File hash mismatch - file may have been modified",
       [("/f", "a\nb\nc\n")], ["/f"]) := by
  have h := stale_file_hash_conflict [("/f", "a\nb\nc\n")] "/f" "H0stale" "x\n" "a\nb\nc\n"
    [⟨2, some 2, "B\n", hashStr "b\n"⟩] rfl (by decide)
  exact ⟨h.1, h.2 rfl⟩

/-- Counterexample to claim C2: the missing file_hash field of the first
file operation, a validation failure of that one file, aborts the whole
call instead of being recorded as that file's error entry; the second,
valid operation is never processed and no result entry exists. -/
theorem batch_abort_on_missing_field :
    editBatchRun [("/b", "x\n")]
      [⟨some "/a", none, some [⟨1, none, "y", "h"⟩]⟩,
       ⟨some "/b", some (hashStr "x\n"), some [⟨1, some 1, "z\n", hashStr "x\n"⟩]⟩] =
      (Except.error "Missing required field: file_hash", [("/b", "x\n")], []) := rfl

/-- Claim C2 as amended: when every file operation has its required
fields and an absolute path, failures inside a single file's processing
(conflicts, validation by the editor, the empty-patches check) are caught
at that file's boundary and the batch always completes with one result
entry per operation. -/
theorem edit_batch_isolation (fs : FS) (files : List FileOp)
    (h : ∀ op ∈ files, wfOp op) :
    ∃ entries fs2 log,
      editBatchRun fs files = (Except.ok entries, fs2, log) ∧
      entries.length = files.length := by
  induction files generalizing fs with
  | nil => exact ⟨[], fs, [], rfl, rfl⟩
  | cons op rest ih =>
    obtain ⟨out, hout⟩ := processFileOp_wf_ok fs op (h op (List.mem_cons_self op rest))
    obtain ⟨name, r, fs1, log1⟩ := out
    obtain ⟨entries, fs2, log2, hrun, hlen⟩ :=
      ih fs1 (fun o ho => h o (List.mem_cons_of_mem op ho))
    refine ⟨(name, r) :: entries, fs2, log1 ++ log2, ?_, by simp [hlen]⟩
    simp only [editBatchRun, hout, hrun]

/-- Witness for claim C2 as amended: a batch whose first operation fails
with a hash conflict still processes the second and returns two entries. -/
theorem edit_batch_isolation_witness :
    (∀ op ∈ ([⟨some "/a", some "stale", some [⟨1, some 1, "y\n", "bad"⟩]⟩,
              ⟨some "/b", some (hashStr "x\n"), some [⟨1, some 1, "z\n", hashStr "x\n"⟩]⟩] :
        List FileOp), wfOp op) ∧
    ∃ entries fs2 log,
      editBatchRun [("/a", "x\n"), ("/b", "x\n")]
          [⟨some "/a", some "stale", some [⟨1, some 1, "y\n", "bad"⟩]⟩,
           ⟨some "/b", some (hashStr "x\n"), some [⟨1, some 1, "z\n", hashStr "x\n"⟩]⟩] =
        (Except.ok entries, fs2, log) ∧ entries.length = 2 := by
  have hwf : ∀ op ∈ ([⟨some "/a", some "stale", some [⟨1, some 1, "y\n", "bad"⟩]⟩,
      ⟨some "/b", some (hashStr "x\n"), some [⟨1, some 1, "z\n", hashStr "x\n"⟩]⟩] :
        List FileOp), wfOp op := by
    intro op hop
    simp only [List.mem_cons, List.not_mem_nil, or_false] at hop
    rcases hop with rfl | rfl
    · exact ⟨"/a", "stale", _, rfl, rfl, rfl, rfl⟩
    · exact ⟨"/b", hashStr "x\n", _, rfl, rfl, rfl, rfl⟩
  exact ⟨hwf, edit_batch_isolation _ _ hwf⟩

/-- Counterexample to claim C3: in an edit batch whose second operation
has a relative path, the whole call fails with the validation error, but
the first operation has already been applied: the file at /a now holds
the new content, so files listed before the relative path are written. -/
theorem relative_path_after_write :
    (editBatchRun [("/a", "x\n")]
        [⟨some "/a", some (hashStr "x\n"), some [⟨1, some 1, "y\n", hashStr "x\n"⟩]⟩,
         ⟨some "rel.txt", some "h", some [⟨1, none, "q", ""⟩]⟩]).1 =
      Except.error "File path must be absolute: rel.txt" ∧
    FS.read (editBatchRun [("/a", "x\n")]
        [⟨some "/a", some (hashStr "x\n"), some [⟨1, some 1, "y\n", hashStr "x\n"⟩]⟩,
         ⟨some "rel.txt", some "h", some [⟨1, none, "q", ""⟩]⟩]).2.1 "/a" = some "y\n" :=
  ⟨rfl, rfl⟩

/-- Claim C3 as amended: a request containing a relative path always
fails with a validation error; for read requests this happens before any
file is accessed (empty access log), while for edit requests the call
still fails as a whole but operations listed before the offending one may
already have been applied. -/
theorem relative_path_rejected (fs gs : FS) (rops : List ReadFileOp) (eops : List FileOp)
    (hr : ∃ op ∈ rops, isAbs op.file_path = false)
    (he : ∃ op ∈ eops, ∃ p, op.path = some p ∧ isAbs p = false) :
    (∃ m, getRun fs rops = (Except.error m, [])) ∧
    (∃ m fs2 log, editBatchRun gs eops = (Except.error m, fs2, log)) :=
  ⟨getRun_error_of_relative fs rops hr, editBatchRun_error_of_relative gs eops he⟩

/-- Witness for claim C3 as amended: one relative read path and one
relative edit path, each making its call fail. -/
theorem relative_path_rejected_witness :
    (∃ m, getRun [] [⟨"rel.txt", []⟩] = (Except.error m, [])) ∧
    (∃ m fs2 log,
      editBatchRun [] [⟨some "other.txt", some "h", some [⟨1, none, "q", ""⟩]⟩] =
        (Except.error m, fs2, log)) :=
  relative_path_rejected [] [] [⟨"rel.txt", []⟩]
    [⟨some "other.txt", some "h", some [⟨1, none, "q", ""⟩]⟩]
    ⟨⟨"rel.txt", []⟩, by simp, rfl⟩
    ⟨⟨some "other.txt", some "h", some [⟨1, none, "q", ""⟩]⟩, by simp, "other.txt", rfl, rfl⟩

/-- Claim C4: a file operation with an empty patches list yields an
immediate per-file error result with reason Empty patches list, the
filesystem is unchanged and the access log is empty, so no disk read or
write happens for that file. -/
theorem empty_patches_per_file_error (fs : FS) (p tok : String) (habs : isAbs p = true) :
    processFileOp fs ⟨some p, some tok, some []⟩ =
      Except.ok (p, ⟨"error", some "Empty patches list", some tok⟩, fs, []) := by
  simp [processFileOp, habs]

/-- Witness for claim C4 at a concrete file operation. -/
theorem empty_patches_per_file_error_witness :
    processFileOp [("/g", "q\n")] ⟨some "/g", some "tok", some []⟩ =
      Except.ok ("/g", ⟨"error", some "Empty patches list", some "tok"⟩, [("/g", "q\n")], []) :=
  empty_patches_per_file_error [("/g", "q\n")] "/g" "tok" rfl

/-- Counterexample to claim C5: a file operation with an empty patches
list fails, and the file_hash field of its error result is the caller's
token, here the string stale, which differs from the current on-disk
hash of the file. -/
theorem empty_patches_hash_not_current :
    processFileOp [("/f", "a\n")] ⟨some "/f", some "stale", some []⟩ =
      Except.ok ("/f", ⟨"error", some "Empty patches list", some "stale"⟩, [("/f", "a\n")], []) ∧
    some "stale" ≠ Option.map hashStr (FS.read [("/f", "a\n")] "/f") :=
  ⟨rfl, by decide⟩

/-- Claim C5 as amended: the file_hash of a failure result is the file's
current on-disk full hash at the time of the failure (none when the file
is unreadable), except the Empty patches list validation error, whose
file_hash is the hash token the caller supplied. -/
theorem failure_hash_current_except_empty (fs : FS) (op : FileOp) (name : String)
    (r : EditResult) (fs2 : FS) (log : List String)
    (h : processFileOp fs op = Except.ok (name, r, fs2, log)) (herr : r.result = "error") :
    (r.reason = some "Empty patches list" ∧ r.file_hash = op.file_hash) ∨
    r.file_hash = Option.map hashStr (FS.read fs name) := by
  obtain ⟨po, tko, pso⟩ := op
  cases po with
  | none => exact absurd h (by simp [processFileOp])
  | some path =>
  cases tko with
  | none => exact absurd h (by simp [processFileOp])
  | some tok =>
  cases pso with
  | none => exact absurd h (by simp [processFileOp])
  | some ps =>
  simp only [processFileOp] at h
  by_cases habs : isAbs path = true
  · rw [if_neg (by simp [habs])] at h
    by_cases hemp : ps.isEmpty = true
    · rw [if_pos hemp] at h
      simp only [Except.ok.injEq, Prod.mk.injEq] at h
      obtain ⟨hname, hrr, hfs, hlog⟩ := h
      subst hname
      subst hrr
      left
      exact ⟨rfl, rfl⟩
    · rw [if_neg hemp] at h
      simp only [Except.ok.injEq, Prod.mk.injEq] at h
      obtain ⟨hname, hrr, hfs, hlog⟩ := h
      subst hname
      subst hrr
      right
      exact edit_error_hash fs path tok ps herr
  · rw [if_pos (by simp [Bool.not_eq_true] at habs ⊢; exact habs)] at h
    exact absurd h (by simp)

/-- Witness for claim C5 as amended: a stale-token conflict on one file
yields an error entry whose hash is the current on-disk hash. -/
theorem failure_hash_current_except_empty_witness :
    ((⟨"error", some "File hash mismatch - file has been modified",
        some (hashStr "x\n")⟩ : EditResult).reason = some "Empty patches list" ∧
      (⟨"error", some "File hash mismatch - file has been modified",
        some (hashStr "x\n")⟩ : EditResult).file_hash =
        (⟨some "/a", some "stale", some [⟨1, some 1, "y\n", "rh"⟩]⟩ : FileOp).file_hash) ∨
    (⟨"error", some "File hash mismatch - file has been modified",
        some (hashStr "x\n")⟩ : EditResult).file_hash =
      Option.map hashStr (FS.read [("/a", "x\n")] "/a") :=
  failure_hash_current_except_empty [("/a", "x\n")]
    ⟨some "/a", some "stale", some [⟨1, some 1, "y\n", "rh"⟩]⟩ "/a"
    ⟨"error", some "File hash mismatch - file has been modified", some (hashStr "x\n")⟩
    [("/a", "x\n")] ["/a"] rfl rfl

/-- Claim C6: the create operation on an existing path fails without
modifying the file; on a non-existent path it is exactly an edit with
empty expected hash and the single creation patch start 1, end null,
empty range_hash, and the file afterwards holds the given contents. -/
theorem create_refines_edit (fs : FS) (path contents : String) (habs : isAbs path = true) :
    (FS.existsFile fs path = true →
      createRun fs path contents = (Except.error ("File already exists: " ++ path), fs, [])) ∧
    (FS.existsFile fs path = false →
      createRun fs path contents =
        (Except.ok (editFileContents fs path "" [⟨1, none, contents, ""⟩]).1,
         (editFileContents fs path "" [⟨1, none, contents, ""⟩]).2, [path]) ∧
      FS.read (createRun fs path contents).2.1 path = some contents) := by
  constructor
  · intro hex
    simp [createRun, habs, hex]
  · intro hex
    have hnone : FS.read fs path = none := by
      unfold FS.existsFile at hex
      cases h : FS.read fs path
      · rfl
      · rw [h] at hex; simp at hex
    have hjoin : String.join [contents] = contents := by
      rw [show String.join [contents] = "" ++ contents from rfl, empty_append_str]
    have hcr : createRun fs path contents =
        (Except.ok (editFileContents fs path "" [⟨1, none, contents, ""⟩]).1,
         (editFileContents fs path "" [⟨1, none, contents, ""⟩]).2, [path]) := by
      simp [createRun, habs, hex]
    refine ⟨hcr, ?_⟩
    rw [hcr]
    simp only [editFileContents, hnone]
    rw [if_pos (by simp)]
    simp [FS.read_write, hjoin]

/-- Witness for claim C6: the specification's scenario, creating a new
file with the content hello and a newline, then failing on repeat. -/
theorem create_refines_edit_witness :
    createRun [] "/new" "hello\n" =
      (Except.ok (editFileContents [] "/new" "" [⟨1, none, "hello\n", ""⟩]).1,
       (editFileContents [] "/new" "" [⟨1, none, "hello\n", ""⟩]).2, ["/new"]) ∧
    FS.read (createRun [] "/new" "hello\n").2.1 "/new" = some "hello\n" ∧
    createRun [("/new", "hello\n")] "/new" "x" =
      (Except.error "File already exists: /new", [("/new", "hello\n")], []) := by
  refine ⟨?_, ?_, ?_⟩
  · exact ((create_refines_edit [] "/new" "hello\n" rfl).2 rfl).1
  · exact ((create_refines_edit [] "/new" "hello\n" rfl).2 rfl).2
  · exact (create_refines_edit [("/new", "hello\n")] "/new" "x" rfl).1 rfl

/-- Claim C7: the append operation on an existing file compares the
caller's hash token with the freshly read current hash and fails without
modification when they differ; when they match it is exactly an edit with
the single append patch start total+1, end null, empty range_hash, where
total is the line count read in the same call (the contents get a
trailing newline when they lack one). -/
theorem append_refines_edit (fs : FS) (path contents token c : String)
    (habs : isAbs path = true) (hc : FS.read fs path = some c) :
    (token ≠ hashStr c →
      appendRun fs path contents token =
        (Except.error "File hash mismatch - file may have been modified", fs, [path])) ∧
    (token = hashStr c →
      appendRun fs path contents token =
        (Except.ok (editFileContents fs path token
            [⟨((splitLines c).length : Int) + 1, none,
              (if endsWithNL contents then contents else contents ++ "\n"), ""⟩]).1,
         (editFileContents fs path token
            [⟨((splitLines c).length : Int) + 1, none,
              (if endsWithNL contents then contents else contents ++ "\n"), ""⟩]).2,
         [path, path])) := by
  constructor
  · intro hne
    simp only [appendRun, habs, Bool.not_true, Bool.false_eq_true, if_false,
      readFileContents, hc, Option.map_some', if_neg hne]
  · intro heq
    simp only [appendRun, habs, Bool.not_true, Bool.false_eq_true, if_false,
      readFileContents, hc, Option.map_some', if_pos heq]

/-- Witness for claim C7: the specification's scenario, appending the
line d to the three-line file a b c, yielding the four-line file. -/
theorem append_refines_edit_witness :
    appendRun [("/f", "a\nb\nc\n")] "/f" "d\n" (hashStr "a\nb\nc\n") =
      (Except.ok (editFileContents [("/f", "a\nb\nc\n")] "/f" (hashStr "a\nb\nc\n")
          [⟨((splitLines "a\nb\nc\n").length : Int) + 1, none,
            (if endsWithNL "d\n" then "d\n" else "d\n" ++ "\n"), ""⟩]).1,
       (editFileContents [("/f", "a\nb\nc\n")] "/f" (hashStr "a\nb\nc\n")
          [⟨((splitLines "a\nb\nc\n").length : Int) + 1, none,
            (if endsWithNL "d\n" then "d\n" else "d\n" ++ "\n"), ""⟩]).2,
       ["/f", "/f"]) ∧
    FS.read (appendRun [("/f", "a\nb\nc\n")] "/f" "d\n" (hashStr "a\nb\nc\n")).2.1 "/f" =
      some "a\nb\nc\nd\n" :=
  ⟨(append_refines_edit [("/f", "a\nb\nc\n")] "/f" "d\n" (hashStr "a\nb\nc\n") "a\nb\nc\n"
      rfl rfl).2 rfl, by decide⟩

/-- Claim C8: the delete-range operation on an existing file whose ranges
all carry an end key is exactly an edit with the caller's hash token and
one patch per range, each with that range's start, end and range_hash and
empty contents. -/
theorem delete_refines_edit (fs : FS) (path token : String) (ranges : List DeleteRange)
    (habs : isAbs path = true) (hex : FS.existsFile fs path = true)
    (hends : ∀ r ∈ ranges, r.fin.isSome = true) :
    deleteRun fs path token ranges =
      (Except.ok (editFileContents fs path token
          (ranges.map fun r => ⟨r.start, r.fin.join, "", r.range_hash⟩)).1,
       (editFileContents fs path token
          (ranges.map fun r => ⟨r.start, r.fin.join, "", r.range_hash⟩)).2,
       [path]) := by
  simp [deleteRun, habs, hex, buildDeletePatches_ok ranges hends]

/-- Witness for claim C8: deleting line 1 of a two-line file leaves the
second line as the whole file. -/
theorem delete_refines_edit_witness :
    deleteRun [("/f", "a\nb\n")] "/f" (hashStr "a\nb\n") [⟨1, some (some 1), hashStr "a\n"⟩] =
      (Except.ok (editFileContents [("/f", "a\nb\n")] "/f" (hashStr "a\nb\n")
          (([⟨1, some (some 1), hashStr "a\n"⟩] : List DeleteRange).map
            fun r => ⟨r.start, r.fin.join, "", r.range_hash⟩)).1,
       (editFileContents [("/f", "a\nb\n")] "/f" (hashStr "a\nb\n")
          (([⟨1, some (some 1), hashStr "a\n"⟩] : List DeleteRange).map
            fun r => ⟨r.start, r.fin.join, "", r.range_hash⟩)).2,
       ["/f"]) ∧
    FS.read (deleteRun [("/f", "a\nb\n")] "/f" (hashStr "a\nb\n")
        [⟨1, some (some 1), hashStr "a\n"⟩]).2.1 "/f" = some "b\n" :=
  ⟨delete_refines_edit [("/f", "a\nb\n")] "/f" (hashStr "a\nb\n")
      [⟨1, some (some 1), hashStr "a\n"⟩] rfl rfl (by decide), by decide⟩

/-- Claim C9: an edit request with an empty list of file operations
succeeds with an empty result mapping, an unchanged filesystem and an
empty access log, so no file is accessed and no error is reported. -/
theorem empty_edit_batch_ok (fs : FS) : editBatchRun fs [] = (Except.ok [], fs, []) := rfl

/-- Claim C10: a delete-range request in which some range omits the end
key fails as a whole with a lookup error while building the patches,
before the editor is invoked: the filesystem is unchanged and the access
log is empty. -/
theorem delete_missing_end_aborts (fs : FS) (path token : String)
    (ranges : List DeleteRange) (habs : isAbs path = true)
    (hex : FS.existsFile fs path = true) (h : ∃ r ∈ ranges, r.fin = none) :
    ∃ m, deleteRun fs path token ranges = (Except.error m, fs, []) := by
  obtain ⟨m, hm⟩ := buildDeletePatches_missing ranges h
  exact ⟨"Error processing request: " ++ m, by simp [deleteRun, habs, hex, hm]⟩

/-- Witness for claim C10: one range without an end key aborts the call
on a two-line file. -/
theorem delete_missing_end_aborts_witness :
    ∃ m, deleteRun [("/f", "a\nb\n")] "/f" (hashStr "a\nb\n") [⟨1, none, hashStr "a\n"⟩] =
      (Except.error m, [("/f", "a\nb\n")], []) :=
  delete_missing_end_aborts [("/f", "a\nb\n")] "/f" (hashStr "a\nb\n")
    [⟨1, none, hashStr "a\n"⟩] rfl rfl ⟨⟨1, none, hashStr "a\n"⟩, by simp, rfl⟩
